import Mathlib

/-!
Verification of the dynatab75x-controller protocol core.

The definitions below are a shallow embedding of the Python sources
`src/epomakercontroller/epomakercontroller.py` and
`src/epomakercontroller/commands/data/constants.py`.

Python conventions reproduced here:
* a `bytearray` / `bytes` value is a `List Nat` whose entries are byte values;
* fallible operations (`int.to_bytes` raising `OverflowError`, byte stores
  raising `ValueError`, `packets[-1]` raising `IndexError` on an empty list,
  item assignment into immutable `bytes` raising `TypeError`) are modelled
  with `Option`/error results: `none` means the Python call raises;
* `range(0, n, step)` is the explicit list of offsets `pyRange n step`.
-/

/-- `PAYLOAD_SIZE = MAX_PACKET_SIZE - HEADER_SIZE` (56 bytes of pixel data). -/
def PAYLOAD_SIZE : Nat := 56

/-- `MAX_PACKET_SIZE = 64`. -/
def MAX_PACKET_SIZE : Nat := 64

/-- `BASE_ADDRESS = 0x0000389D` (still-image decrementing-nibble base). -/
def BASE_ADDRESS : Nat := 0x389D

/-- `VENDOR_ID = 0x3151` from `constants.py`. -/
def VENDOR_ID : Nat := 0x3151

/-- `PRODUCT_IDS_WIRED = [0x4010, 0x4015]` from `constants.py`. -/
def PRODUCT_IDS_WIRED : List Nat := [0x4010, 0x4015]

/-- A protocol packet: a Python `bytearray` of byte values. -/
abbrev Packet := List Nat

/-- Storing a value into a `bytearray` cell (`packet[i] = v`): Python raises
`ValueError` unless `0 ≤ v < 256`. -/
def setByte (v : Nat) : Option Nat :=
  if v < 256 then some v else none

/-- `v.to_bytes(2, byteorder="little")` on a nonnegative Python int: the two
bytes `[v & 0xff, v >> 8]`, raising `OverflowError` when `v ≥ 2^16`. -/
def toBytesLE2 (v : Nat) : Option (Nat × Nat) :=
  if v < 65536 then some (v % 256, v / 256) else none

/-- `v.to_bytes(2, byteorder="big")` on a Python int: the two bytes
`[v >> 8, v & 0xff]`, raising `OverflowError` when `v` is negative or
`v ≥ 2^16`.  The decrementing nibble is decremented below `0` by the source
when a frame has enough chunks, hence the `Int` argument. -/
def toBytesBE2 (v : Int) : Option (Nat × Nat) :=
  if 0 ≤ v ∧ v < 65536 then some (v.toNat / 256, v.toNat % 256) else none

/-- One iteration body of `_chunk_data`'s inner loop: builds the 64-byte
packet for one chunk.  `bytearray(MAX_PACKET_SIZE)` starts all-zero, the
header is written into bytes 0–7, the chunk into bytes `8..8+len(chunk)`;
the explicit re-padding of the tail is a content no-op because the buffer is
already zero, so the packet is header ++ chunk ++ zero padding. -/
def mkPacket (frameIndex hdr2 hdr3 : Nat) (inc : Nat) (dec : Int)
    (chunk : List Nat) : Option Packet :=
  (setByte frameIndex).bind (fun b1 =>
    (setByte hdr2).bind (fun b2 =>
      (toBytesLE2 inc).bind (fun i =>
        (toBytesBE2 dec).bind (fun d =>
          some ([0x29, b1, b2, hdr3, i.1, i.2, d.1, d.2] ++ chunk ++
            List.replicate (PAYLOAD_SIZE - chunk.length) 0)))))

/-- The value produced by `mkPacket` when every header store succeeds. -/
def mkPacketVal (frameIndex hdr2 hdr3 : Nat) (inc : Nat) (dec : Int)
    (chunk : List Nat) : Packet :=
  [0x29, frameIndex, hdr2, hdr3, inc % 256, inc / 256,
    dec.toNat / 256, dec.toNat % 256] ++ chunk ++
    List.replicate (PAYLOAD_SIZE - chunk.length) 0

/-- Python `range(0, stop, step)` for `step > 0`: the list
`[0, step, 2*step, ...]` of length `⌈stop/step⌉`. -/
def pyRange (stop step : Nat) : List Nat :=
  (List.range ((stop + step - 1) / step)).map (fun i => step * i)

/-- The inner loop of `_chunk_data` over one frame: for each offset builds a
packet from `frame_data[offset : offset+PAYLOAD_SIZE]`, then increments the
incrementing nibble and decrements the decrementing nibble. -/
def chunkFrameLoop (frameIndex hdr2 hdr3 : Nat) (frame : List Nat) :
    List Nat → Nat → Int → Option (List Packet)
  | [], _, _ => some []
  | offset :: rest, inc, dec =>
    (mkPacket frameIndex hdr2 hdr3 inc dec
        ((frame.drop offset).take PAYLOAD_SIZE)).bind (fun p =>
      (chunkFrameLoop frameIndex hdr2 hdr3 frame rest (inc + 1)
          (dec - 1)).bind (fun ps =>
        some (p :: ps)))

/-- `bytearray(override_value)` for a pair of Python ints: raises
`ValueError` unless both components are bytes. -/
def byteArrayOfPair (ov : Int × Int) : Option (List Nat) :=
  if 0 ≤ ov.1 ∧ ov.1 < 256 ∧ 0 ≤ ov.2 ∧ ov.2 < 256 then
    some [ov.1.toNat, ov.2.toNat]
  else none

/-- Slice assignment `packet[6:8] = v` for a two-byte `v`. -/
def setSlice67 (p : Packet) (v : List Nat) : Packet :=
  p.take 6 ++ v ++ p.drop 8

/-- `packets[-1][6:8] = bytearray(override_value)`: raises `IndexError` when
`packets` is empty (the source indexes the shared, cross-frame packet
accumulator). -/
def overrideLast (packets : List Packet) (ov : Int × Int) :
    Option (List Packet) :=
  (byteArrayOfPair ov).bind (fun v =>
    match packets.getLast? with
    | none => none
    | some last => some (packets.dropLast ++ [setSlice67 last v]))

/-- The outer loop of `_chunk_data`: one pass per frame, packets accumulated
across frames in a single list; after a frame's chunks, when
`per_frame_override and final_packet_overrides` is truthy, bytes 6–7 of the
*last accumulated packet* are overwritten with
`final_packet_overrides[frame_index]`. -/
def chunkFrames (numFrames : Nat) (baseAddress : Int)
    (overrides : List (Int × Int)) (perFrameOverride isAnimation : Bool) :
    Nat → List (List Nat) → List Packet → Option (List Packet)
  | _, [], packets => some packets
  | frameIndex, frame :: rest, packets =>
    (chunkFrameLoop frameIndex (if isAnimation then numFrames else 1)
        (if isAnimation then 0x32 else 0x00) frame
        (pyRange frame.length PAYLOAD_SIZE) 0 baseAddress).bind (fun ps =>
      (if perFrameOverride && !overrides.isEmpty then
          (overrides[frameIndex]?).bind (fun ov =>
            overrideLast (packets ++ ps) ov)
        else some (packets ++ ps)).bind (fun packets2 =>
        chunkFrames numFrames baseAddress overrides perFrameOverride
          isAnimation (frameIndex + 1) rest packets2))

/-- `_chunk_data` accepts either a bare `bytearray` or a list of them. -/
inductive ChunkInput where
  | single (frame : List Nat)
  | multi (frames : List (List Nat))

/-- `_chunk_data(data, base_address, final_packet_overrides,
per_frame_override, is_animation)`: a bare bytearray is wrapped into a
one-element list, then the frames are chunked in order. -/
def chunk_data (input : ChunkInput) (baseAddress : Int)
    (overrides : List (Int × Int)) (perFrameOverride isAnimation : Bool) :
    Option (List Packet) :=
  let data := match input with
    | .single f => [f]
    | .multi fs => fs
  chunkFrames data.length baseAddress overrides perFrameOverride isAnimation
    0 data []

/-- `_chunk_image_data`: the still-image configuration. -/
def chunk_image_data (imageData : List Nat) : Option (List Packet) :=
  chunk_data (.single imageData) ((BASE_ADDRESS : Nat) : Int)
    [((0x34 : Int), (0x85 : Int))] true false

/-- `_chunk_animation_data`: the animation configuration with per-frame
overrides `(0x34, 0x49 - i)`. -/
def chunk_animation_data (animationData : List (List Nat)) :
    Option (List Packet) :=
  chunk_data (.multi animationData) 0x3861
    ((List.range animationData.length).map
      (fun i => ((0x34 : Int), (0x49 : Int) - (i : Int)))) true true

/-- An RGB pixel as returned by `image.getpixel` on an RGB-mode PIL image:
three channel values, each a byte. -/
abbrev Pixel := Fin 256 × Fin 256 × Fin 256

/-- `IMAGE_DIMENSIONS = (9, 60)` (rows, cols) from `constants.py`. -/
def IMAGE_DIMENSIONS : Nat × Nat := (9, 60)

/-- `MAX_NUM_PIXELS = 60 * 9` from `constants.py`. -/
def MAX_NUM_PIXELS : Nat := 60 * 9

/-- `_rgb_to_hex`: formats the three channels as two hex digits each and
parses the bytes back, i.e. emits the three channel bytes in R,G,B order. -/
def rgb_to_hex (rgb : Pixel) : List Nat :=
  [rgb.1.val, rgb.2.1.val, rgb.2.2.val]

/-- The pixel-emission loop of `_encode_image` on a canvas that already has
the fixed 60×9 dimensions: `for col in range(cols): for row in range(rows):`
with `rows, cols = IMAGE_DIMENSIONS`, extending the byte buffer with
`_rgb_to_hex(image.getpixel((col, row)))`. -/
def encode_image (getpixel : Nat → Nat → Pixel) : List Nat :=
  (List.range IMAGE_DIMENSIONS.2).flatMap (fun col =>
    (List.range IMAGE_DIMENSIONS.1).flatMap (fun row =>
      rgb_to_hex (getpixel col row)))

/-- Modelled from the spec: decoding a flat byte sequence back into (R,G,B)
triples, three consecutive bytes per pixel, in the order the bytes appear
(the round-trip direction of the testable property; the repository has no
decoder of its own). -/
def decode_triples : List Nat → List (Nat × Nat × Nat)
  | r :: g :: b :: rest => (r, g, b) :: decode_triples rest
  | _ => []

/-- `_find_product_id`'s loop over the candidate product ids: for each id run
`hid.enumerate(vendor_id, pid)` and return the id as soon as the enumeration
is truthy (non-empty). -/
def find_product_id_loop (enum : Nat → Nat → List Unit) (vid : Nat) :
    List Nat → Option Nat
  | [] => none
  | pid :: rest =>
    if (enum vid pid).isEmpty then find_product_id_loop enum vid rest
    else some pid

/-- `_find_product_id`: iterate `PRODUCT_IDS_WIRED` under `VENDOR_ID`,
abstracting the OS facility `hid.enumerate` as a function argument. -/
def find_product_id (enum : Nat → Nat → List Unit) : Option Nat :=
  find_product_id_loop enum VENDOR_ID PRODUCT_IDS_WIRED

/-- A Python byte sequence together with its mutability: `bytes` objects
(`isMutable = false`) raise `TypeError` on item assignment. -/
structure PyByteSeq where
  data : List Nat
  isMutable : Bool

/-- Item assignment `b[i] = v`: `TypeError` on immutable `bytes`,
`ValueError` for a non-byte value, `IndexError` out of range. -/
def pySetIndex (b : PyByteSeq) (i : Nat) (v : Int) : Option PyByteSeq :=
  if b.isMutable = false then none
  else if 0 ≤ v ∧ v < 256 ∧ i < b.data.length then
    some ⟨b.data.set i v.toNat, true⟩
  else none

/-- `FIRST_PACKET = bytes.fromhex("a9000100540600fb00003c09" + "00"*52)`:
an immutable 64-byte constant. -/
def FIRST_PACKET : PyByteSeq :=
  ⟨[0xa9, 0x00, 0x01, 0x00, 0x54, 0x06, 0x00, 0xfb, 0x00, 0x00, 0x3c, 0x09]
    ++ List.replicate 52 0, false⟩

/-- The exceptions the send paths can raise, named after the Python sites:
`deviceNotSet` (`assert`/`ValueError` when `self.device` is unset),
`commFailure` (`IOError("Could not communicate with device")` when the
product-string liveness probe fails), `noFrames`
(`ValueError("No frames extracted from animation")`), `chunkFailure`
(an exception escaping `_chunk_data`), `preambleImmutable`
(`TypeError` from `first_packet[2] = len(frames)` on the immutable
`FIRST_PACKET`), `openFailed` (the `AssertionError` raised by
`_open_device` after its `except IOError` handler clears the handle). -/
inductive PyErr where
  | deviceNotSet
  | commFailure
  | noFrames
  | chunkFailure
  | preambleImmutable
  | openFailed
deriving DecidableEq

/-- The outcome of a send entry point: the feature reports written to the
device, in order, and the exception (if any) that aborted the call.  A raise
leaves every packet that was not yet written unsent. -/
abbrev SendOutcome := List (List Nat) × Option PyErr

/-- `send_image` after `_encode_image` has produced `imageData`: assert the
device handle, probe `get_product_string` (re-raised as the communication
IOError), chunk with the still configuration, then write `FIRST_PACKET`,
read the acknowledge report, and write every data packet in order. -/
def send_image_model (deviceSet probeOk : Bool) (imageData : List Nat) :
    SendOutcome :=
  if deviceSet = false then ([], some .deviceNotSet)
  else if probeOk = false then ([], some .commFailure)
  else
    match chunk_image_data imageData with
    | none => ([], some .chunkFailure)
    | some commands => (FIRST_PACKET.data :: commands, none)

/-- `send_animation` after the GIF has been decoded into `frames`: check the
device handle, probe `get_product_string`, reject an empty frame list, chunk
with the animation configuration, then assign
`first_packet[2] = len(frames)` and `first_packet[7] = 0xC8 - (len(frames) - 2)`
into `FIRST_PACKET` before sending the preamble and data packets. -/
def send_animation_model (deviceSet probeOk : Bool)
    (frames : List (List Nat)) : SendOutcome :=
  if deviceSet = false then ([], some .deviceNotSet)
  else if probeOk = false then ([], some .commFailure)
  else if frames.isEmpty then ([], some .noFrames)
  else
    match chunk_animation_data frames with
    | none => ([], some .chunkFailure)
    | some packets =>
      match pySetIndex FIRST_PACKET 2 (frames.length : Int) with
      | none => ([], some .preambleImmutable)
      | some p1 =>
        match pySetIndex p1 7 (0xC8 - ((frames.length : Int) - 2)) with
        | none => ([], some .preambleImmutable)
        | some p2 => (p2.data :: packets, none)

/-- `_open_device`: `hid.device().open_path(path)` inside
`try/except IOError`; on failure the handler clears `self.device` to `None`
and the trailing `assert self.device is not None` raises.  The result is the
retained handle (`none` = no open handle) and the raised failure, if any. -/
def open_device_model (osOpenOk : Bool) : Option Unit × Option PyErr :=
  let device : Option Unit := if osOpenOk then some () else none
  match device with
  | some d => (some d, none)
  | none => (none, some .openFailed)

/-- Number of chunks — and hence packets — `_chunk_data` builds for a frame
of `L` bytes: `⌈L / 56⌉`. -/
def numChunks (L : Nat) : Nat := (L + PAYLOAD_SIZE - 1) / PAYLOAD_SIZE

/-- The packet list the inner loop produces for one frame, before the
final-packet override: packet `j` carries incrementing nibble `j`,
decrementing nibble `base - j`, and the chunk at offset `56 * j`. -/
def framePackets (frameIndex hdr2 hdr3 : Nat) (base : Int)
    (frame : List Nat) : List Packet :=
  (List.range (numChunks frame.length)).map (fun j =>
    mkPacketVal frameIndex hdr2 hdr3 j (base - j)
      ((frame.drop (PAYLOAD_SIZE * j)).take PAYLOAD_SIZE))

/-- One frame's packets after bytes 6–7 of its last packet are overwritten
with the frame's override pair. -/
def overriddenFramePackets (frameIndex hdr2 hdr3 : Nat) (base : Int)
    (frame : List Nat) (ov : Int × Int) : List Packet :=
  (framePackets frameIndex hdr2 hdr3 base frame).dropLast ++
    [setSlice67 ((framePackets frameIndex hdr2 hdr3 base frame).getLast?.getD [])
      [ov.1.toNat, ov.2.toNat]]

/-- The full packet sequence `_chunk_data` produces for a list of frames
starting at frame index `fi`, when every step succeeds. -/
def expectedPackets (base : Int) (overrides : List (Int × Int))
    (hdr2 hdr3 : Nat) : Nat → List (List Nat) → List Packet
  | _, [] => []
  | fi, f :: rest =>
    overriddenFramePackets fi hdr2 hdr3 base f (overrides.getD fi (0, 0)) ++
      expectedPackets base overrides hdr2 hdr3 (fi + 1) rest

/-- Index of the first packet of frame `i` within the concatenated output. -/
def frameStart (frames : List (List Nat)) (i : Nat) : Nat :=
  ((frames.take i).map (fun f => numChunks f.length)).sum

theorem mkPacket_eq_val (fi h2 h3 inc : Nat) (dec : Int) (chunk : List Nat)
    (hfi : fi < 256) (hh2 : h2 < 256) (hinc : inc < 65536)
    (hd0 : 0 ≤ dec) (hd1 : dec < 65536) :
    mkPacket fi h2 h3 inc dec chunk = some (mkPacketVal fi h2 h3 inc dec chunk) := by
  simp [mkPacket, mkPacketVal, setByte, toBytesLE2, toBytesBE2,
    hfi, hh2, hinc, hd0, hd1]

theorem chunkFrameLoop_range (fi h2 h3 : Nat) (frame : List Nat) :
    ∀ (m s inc : Nat) (dec : Int),
      fi < 256 → h2 < 256 → inc + m ≤ 65536 → (m : Int) ≤ dec + 1 →
      dec < 65536 →
      chunkFrameLoop fi h2 h3 frame
          ((List.range m).map (fun i => PAYLOAD_SIZE * (s + i))) inc dec
        = some ((List.range m).map (fun j =>
            mkPacketVal fi h2 h3 (inc + j) (dec - j)
              ((frame.drop (PAYLOAD_SIZE * (s + j))).take PAYLOAD_SIZE))) := by
  intro m
  induction m with
  | zero => intro s inc dec _ _ _ _ _; simp [chunkFrameLoop]
  | succ m ih =>
    intro s inc dec hfi hh2 hinc hdec hdec2
    have hd0 : (0 : Int) ≤ dec := by
      have : ((m : Int) + 1) ≤ dec + 1 := by push_cast at hdec ⊢; omega
      omega
    rw [List.range_succ_eq_map]
    simp only [List.map_cons, List.map_map]
    rw [chunkFrameLoop]
    rw [mkPacket_eq_val fi h2 h3 inc dec _ hfi hh2 (by omega) hd0 hdec2]
    have hmap : (List.range m).map ((fun i => PAYLOAD_SIZE * (s + i)) ∘ Nat.succ)
        = (List.range m).map (fun i => PAYLOAD_SIZE * ((s + 1) + i)) := by
      apply List.map_congr_left
      intro a _
      simp [Function.comp]
      omega
    rw [hmap, ih (s + 1) (inc + 1) (dec - 1) hfi hh2 (by omega)
      (by push_cast at hdec ⊢; omega) (by omega)]
    simp only [Option.bind_some, Option.some_bind]
    congr 1
    congr 1
    · norm_num
    · apply List.map_congr_left
      intro a _
      simp only [Function.comp_apply, Nat.succ_eq_add_one]
      have e1 : inc + 1 + a = inc + (a + 1) := by omega
      have e2 : dec - 1 - (a : Int) = dec - ((a : Nat) + 1 : Int) := by omega
      have e3 : s + 1 + a = s + (a + 1) := by omega
      rw [e1, e3]
      push_cast
      rw [e2]

theorem chunkFrameLoop_spec (fi h2 h3 : Nat) (frame : List Nat) (base : Int)
    (hfi : fi < 256) (hh2 : h2 < 256) (hcnt : numChunks frame.length ≤ 65536)
    (hbase1 : (numChunks frame.length : Int) ≤ base + 1)
    (hbase2 : base < 65536) :
    chunkFrameLoop fi h2 h3 frame (pyRange frame.length PAYLOAD_SIZE) 0 base
      = some (framePackets fi h2 h3 base frame) := by
  have hpy : pyRange frame.length PAYLOAD_SIZE
      = (List.range (numChunks frame.length)).map
          (fun i => PAYLOAD_SIZE * (0 + i)) := by
    simp [pyRange, numChunks]
  rw [hpy, chunkFrameLoop_range fi h2 h3 frame (numChunks frame.length) 0 0
    base hfi hh2 (by omega) hbase1 hbase2]
  simp [framePackets]

theorem length_framePackets (fi h2 h3 : Nat) (base : Int) (frame : List Nat) :
    (framePackets fi h2 h3 base frame).length = numChunks frame.length := by
  simp [framePackets]

theorem mkPacketVal_length (fi h2 h3 inc : Nat) (dec : Int) (chunk : List Nat)
    (h : chunk.length ≤ PAYLOAD_SIZE) :
    (mkPacketVal fi h2 h3 inc dec chunk).length = MAX_PACKET_SIZE := by
  simp [mkPacketVal, PAYLOAD_SIZE, MAX_PACKET_SIZE] at h ⊢
  omega

theorem length_mem_framePackets (fi h2 h3 : Nat) (base : Int)
    (frame : List Nat) (p : Packet)
    (hp : p ∈ framePackets fi h2 h3 base frame) : p.length = MAX_PACKET_SIZE := by
  simp only [framePackets, List.mem_map] at hp
  obtain ⟨j, _, rfl⟩ := hp
  exact mkPacketVal_length _ _ _ _ _ _ (by simp [List.length_take])

theorem framePackets_ne_nil (fi h2 h3 : Nat) (base : Int) (frame : List Nat)
    (hne : frame ≠ []) : framePackets fi h2 h3 base frame ≠ [] := by
  have : frame.length ≠ 0 := by simpa using hne
  have : 0 < numChunks frame.length := by
    simp [numChunks, PAYLOAD_SIZE]; omega
  simp only [framePackets, ne_eq, List.map_eq_nil_iff, List.range_eq_nil]
  omega

theorem overrideLast_append (acc ps : List Packet) (ov : Int × Int)
    (hps : ps ≠ []) (h1 : 0 ≤ ov.1) (h2 : ov.1 < 256) (h3 : 0 ≤ ov.2)
    (h4 : ov.2 < 256) :
    overrideLast (acc ++ ps) ov
      = some (acc ++ (ps.dropLast ++
          [setSlice67 (ps.getLast?.getD []) [ov.1.toNat, ov.2.toNat]])) := by
  have hbap : byteArrayOfPair ov = some [ov.1.toNat, ov.2.toNat] := by
    simp [byteArrayOfPair, h1, h2, h3, h4]
  obtain ⟨a, ha⟩ : ∃ a, ps.getLast? = some a := by
    cases h : ps.getLast? with
    | none => exact absurd (List.getLast?_eq_none_iff.mp h) hps
    | some a => exact ⟨a, rfl⟩
  have hlast : (acc ++ ps).getLast? = some a := by
    simp [List.getLast?_append, ha]
  rw [overrideLast, hbap]
  simp only [Option.some_bind, hlast, ha]
  rw [List.dropLast_append_of_ne_nil acc hps]
  simp [List.append_assoc]

theorem chunkFrames_spec (base : Int) (overrides : List (Int × Int))
    (anim : Bool) (numFrames : Nat)
    (hh2 : (if anim then numFrames else 1) < 256) (hbase2 : base < 65536) :
    ∀ (frames : List (List Nat)) (fiStart : Nat) (acc : List Packet),
      (∀ f ∈ frames, f ≠ []) →
      (∀ f ∈ frames, numChunks f.length ≤ 65536 ∧
        (numChunks f.length : Int) ≤ base + 1) →
      fiStart + frames.length ≤ 256 →
      fiStart + frames.length ≤ overrides.length →
      (∀ ov ∈ overrides, 0 ≤ ov.1 ∧ ov.1 < 256 ∧ 0 ≤ ov.2 ∧ ov.2 < 256) →
      chunkFrames numFrames base overrides true anim fiStart frames acc
        = some (acc ++ expectedPackets base overrides
            (if anim then numFrames else 1) (if anim then 0x32 else 0x00)
            fiStart frames) := by
  intro frames
  induction frames with
  | nil =>
    intro fiStart acc _ _ _ _ _
    simp [chunkFrames, expectedPackets]
  | cons f rest ih =>
    intro fiStart acc hne hcnt hfi256 hovlen hovb
    have hmemf : f ∈ f :: rest := by simp
    have hlen1 : fiStart < overrides.length := by
      simp at hovlen; omega
    have hloop := chunkFrameLoop_spec fiStart (if anim then numFrames else 1)
      (if anim then 0x32 else 0x00) f base
      (by simp at hfi256; omega) hh2 (hcnt f hmemf).1 (hcnt f hmemf).2 hbase2
    have hovne : (!overrides.isEmpty) = true := by
      cases overrides with
      | nil => simp at hlen1
      | cons a l => simp
    have hget : overrides[fiStart]? = some overrides[fiStart] :=
      List.getElem?_eq_getElem hlen1
    have hovmem : overrides[fiStart] ∈ overrides := List.getElem_mem hlen1
    obtain ⟨hb1, hb2, hb3, hb4⟩ := hovb _ hovmem
    have hfpne : framePackets fiStart (if anim then numFrames else 1)
        (if anim then 0x32 else 0x00) base f ≠ [] :=
      framePackets_ne_nil _ _ _ _ _ (hne f hmemf)
    have hovr := overrideLast_append acc
      (framePackets fiStart (if anim then numFrames else 1)
        (if anim then 0x32 else 0x00) base f)
      overrides[fiStart] hfpne hb1 hb2 hb3 hb4
    have hgetD : overrides.getD fiStart ((0 : Int), (0 : Int))
        = overrides[fiStart] := by
      simp [List.getD_eq_getElem?_getD, hget]
    rw [chunkFrames, hloop]
    simp only [Option.some_bind, hovne, Bool.and_true, Bool.true_and, if_pos,
      hget, hovr]
    rw [ih (fiStart + 1) _ (fun g hg => hne g (by simp [hg]))
      (fun g hg => hcnt g (by simp [hg])) (by simp at hfi256 ⊢; omega)
      (by simp at hovlen ⊢; omega) hovb]
    rw [expectedPackets]
    simp only [overriddenFramePackets, hgetD]
    simp [List.append_assoc]

theorem length_overriddenFramePackets (fi h2 h3 : Nat) (base : Int)
    (frame : List Nat) (ov : Int × Int) (hne : frame ≠ []) :
    (overriddenFramePackets fi h2 h3 base frame ov).length
      = numChunks frame.length := by
  have hpos : 0 < (framePackets fi h2 h3 base frame).length :=
    List.length_pos.mpr (framePackets_ne_nil fi h2 h3 base frame hne)
  have hlen := length_framePackets fi h2 h3 base frame
  simp only [overriddenFramePackets, List.length_append, List.length_dropLast,
    List.length_cons, List.length_nil]
  omega

theorem mkPacketVal_fields (fi h2 h3 inc : Nat) (dec : Int)
    (chunk : List Nat) :
    (mkPacketVal fi h2 h3 inc dec chunk)[4]? = some (inc % 256) ∧
    (mkPacketVal fi h2 h3 inc dec chunk)[5]? = some (inc / 256) ∧
    (mkPacketVal fi h2 h3 inc dec chunk)[6]? = some (dec.toNat / 256) ∧
    (mkPacketVal fi h2 h3 inc dec chunk)[7]? = some (dec.toNat % 256) :=
  ⟨by rfl, by rfl, by rfl, by simp [mkPacketVal]⟩

theorem setSlice67_mkPacketVal_fields (fi h2 h3 inc : Nat) (dec : Int)
    (chunk : List Nat) (v1 v2 : Nat) :
    (setSlice67 (mkPacketVal fi h2 h3 inc dec chunk) [v1, v2])[4]?
        = some (inc % 256) ∧
    (setSlice67 (mkPacketVal fi h2 h3 inc dec chunk) [v1, v2])[5]?
        = some (inc / 256) ∧
    (setSlice67 (mkPacketVal fi h2 h3 inc dec chunk) [v1, v2])[6]? = some v1 ∧
    (setSlice67 (mkPacketVal fi h2 h3 inc dec chunk) [v1, v2])[7]? = some v2 :=
  ⟨by rfl, by rfl, by rfl, by simp [setSlice67, mkPacketVal]⟩

theorem framePackets_getElem? (fi h2 h3 : Nat) (base : Int)
    (frame : List Nat) (k : Nat) (hk : k < numChunks frame.length) :
    (framePackets fi h2 h3 base frame)[k]?
      = some (mkPacketVal fi h2 h3 k (base - k)
          ((frame.drop (PAYLOAD_SIZE * k)).take PAYLOAD_SIZE)) := by
  simp [framePackets, List.getElem?_map, List.getElem?_range hk]

theorem framePackets_getLast (fi h2 h3 : Nat) (base : Int) (frame : List Nat)
    (hne : frame ≠ []) :
    (framePackets fi h2 h3 base frame).getLast?.getD []
      = mkPacketVal fi h2 h3 (numChunks frame.length - 1)
          (base - (numChunks frame.length - 1 : Nat))
          ((frame.drop (PAYLOAD_SIZE * (numChunks frame.length - 1))).take
            PAYLOAD_SIZE) := by
  have hpos : 0 < (framePackets fi h2 h3 base frame).length :=
    List.length_pos.mpr (framePackets_ne_nil fi h2 h3 base frame hne)
  rw [List.getLast?_eq_getElem?, length_framePackets,
    framePackets_getElem? fi h2 h3 base frame _
      (by rw [length_framePackets] at hpos; omega)]
  rfl

theorem overriddenFramePackets_fields (fi h2 h3 : Nat) (base : Int)
    (frame : List Nat) (ov : Int × Int) (k : Nat)
    (hne : frame ≠ []) (hk : k < numChunks frame.length) :
    ∃ p, (overriddenFramePackets fi h2 h3 base frame ov)[k]? = some p ∧
      p[4]? = some (k % 256) ∧ p[5]? = some (k / 256) ∧
      (k + 1 = numChunks frame.length →
        p[6]? = some ov.1.toNat ∧ p[7]? = some ov.2.toNat) ∧
      (k + 1 ≠ numChunks frame.length →
        p[6]? = some ((base - k).toNat / 256) ∧
        p[7]? = some ((base - k).toNat % 256)) := by
  have hpos : 0 < (framePackets fi h2 h3 base frame).length :=
    List.length_pos.mpr (framePackets_ne_nil fi h2 h3 base frame hne)
  have hlen := length_framePackets fi h2 h3 base frame
  by_cases hlast : k + 1 = numChunks frame.length
  · refine ⟨setSlice67 ((framePackets fi h2 h3 base frame).getLast?.getD [])
      [ov.1.toNat, ov.2.toNat], ?_, ?_⟩
    · rw [overriddenFramePackets]
      have hkd : k = (framePackets fi h2 h3 base frame).dropLast.length := by
        simp only [List.length_dropLast]
        omega
      rw [hkd, List.getElem?_append_right (Nat.le_refl _)]
      simp
    · rw [framePackets_getLast fi h2 h3 base frame hne]
      have hk1 : numChunks frame.length - 1 = k := by omega
      rw [hk1]
      obtain ⟨e4, e5, e6, e7⟩ := setSlice67_mkPacketVal_fields fi h2 h3 k
        (base - k) ((frame.drop (PAYLOAD_SIZE * k)).take PAYLOAD_SIZE)
        ov.1.toNat ov.2.toNat
      exact ⟨e4, e5, fun _ => ⟨e6, e7⟩, fun h => absurd hlast h⟩
  · refine ⟨mkPacketVal fi h2 h3 k (base - k)
      ((frame.drop (PAYLOAD_SIZE * k)).take PAYLOAD_SIZE), ?_, ?_⟩
    · rw [overriddenFramePackets,
        List.getElem?_append_left (by simp [List.length_dropLast]; omega),
        List.dropLast_eq_take, List.getElem?_take]
      rw [if_pos (by omega), framePackets_getElem? fi h2 h3 base frame k hk]
    · obtain ⟨e4, e5, e6, e7⟩ := mkPacketVal_fields fi h2 h3 k (base - k)
        ((frame.drop (PAYLOAD_SIZE * k)).take PAYLOAD_SIZE)
      exact ⟨e4, e5, fun h => absurd h hlast, fun _ => ⟨e6, e7⟩⟩

theorem expectedPackets_getElem? (base : Int) (overrides : List (Int × Int))
    (h2 h3 : Nat) :
    ∀ (frames : List (List Nat)) (fi i k : Nat)
      (_hne : ∀ f ∈ frames, f ≠ []) (hi : i < frames.length)
      (_hk : k < numChunks frames[i].length),
      (expectedPackets base overrides h2 h3 fi frames)[frameStart frames i + k]?
        = (overriddenFramePackets (fi + i) h2 h3 base frames[i]
            (overrides.getD (fi + i) (0, 0)))[k]? := by
  intro frames
  induction frames with
  | nil => intro fi i k _ hi _; simp at hi
  | cons f rest ih =>
    intro fi i k hne hi hk
    have hfne : f ≠ [] := hne f (by simp)
    have hlen : (overriddenFramePackets fi h2 h3 base f
        (overrides.getD fi (0, 0))).length = numChunks f.length :=
      length_overriddenFramePackets _ _ _ _ _ _ hfne
    cases i with
    | zero =>
      simp only [frameStart, List.take_zero, List.map_nil, List.sum_nil,
        Nat.zero_add, Nat.add_zero]
      rw [expectedPackets]
      rw [List.getElem?_append_left (by rw [hlen]; simpa using hk)]
      simp
    | succ j =>
      have hfs : frameStart (f :: rest) (j + 1)
          = numChunks f.length + frameStart rest j := by
        simp [frameStart, List.take_succ_cons]
      rw [expectedPackets, hfs]
      rw [List.getElem?_append_right (by rw [hlen]; omega)]
      rw [hlen]
      have e : numChunks f.length + frameStart rest j + k - numChunks f.length
          = frameStart rest j + k := by omega
      rw [e]
      rw [ih (fi + 1) j k (fun g hg => hne g (by simp [hg]))
        (by simpa using hi) (by simpa using hk)]
      have e2 : fi + 1 + j = fi + (j + 1) := by omega
      simp [e2]

/-- Claim C2 (as amended): for a frame list in which every frame is
non-empty (and within the protocol's 16-bit counter bounds), every packet
`k` (0-based within its frame) produced by `_chunk_data` carries bytes 4–5
equal to `k` little-endian, and bytes 6–7 equal to `baseAddress - k`
big-endian, except the last packet of the frame, whose bytes 6–7 equal the
caller-supplied override pair for that frame regardless of the arithmetic
value; no other packet is changed by the override.  The non-emptiness
hypothesis is forced by the code: an empty frame's override is applied to
the shared accumulator's last packet, i.e. to the previous frame's final
packet (see the counterexample). -/
theorem C2_header_fields (frames : List (List Nat)) (base : Int)
    (overrides : List (Int × Int))
    (hne : ∀ f ∈ frames, f ≠ [])
    (hcnt : ∀ f ∈ frames, numChunks f.length ≤ 65536 ∧
      (numChunks f.length : Int) ≤ base + 1)
    (hbase : base < 65536)
    (hflen : frames.length < 256)
    (hovlen : frames.length ≤ overrides.length)
    (hovb : ∀ ov ∈ overrides, 0 ≤ ov.1 ∧ ov.1 < 256 ∧ 0 ≤ ov.2 ∧ ov.2 < 256) :
    ∃ ps, chunk_data (.multi frames) base overrides true true = some ps ∧
      ∀ i, (hi : i < frames.length) → ∀ k, k < numChunks frames[i].length →
        ∃ p, ps[frameStart frames i + k]? = some p ∧
          p[4]? = some (k % 256) ∧ p[5]? = some (k / 256) ∧
          (k + 1 = numChunks frames[i].length →
            p[6]? = some (overrides.getD i (0, 0)).1.toNat ∧
            p[7]? = some (overrides.getD i (0, 0)).2.toNat) ∧
          (k + 1 ≠ numChunks frames[i].length →
            p[6]? = some ((base - k).toNat / 256) ∧
            p[7]? = some ((base - k).toNat % 256)) := by
  refine ⟨expectedPackets base overrides frames.length 0x32 0 frames, ?_, ?_⟩
  · have hspec := chunkFrames_spec base overrides true frames.length
      (by simpa using hflen) hbase frames 0 [] hne hcnt (by omega)
      (by omega) hovb
    simp only [if_pos] at hspec
    simpa [chunk_data] using hspec
  · intro i hi k hk
    have hidx := expectedPackets_getElem? base overrides frames.length 0x32
      frames 0 i k hne hi hk
    obtain ⟨p, hp, h4, h5, h6, h7⟩ := overriddenFramePackets_fields i
      frames.length 0x32 base frames[i] (overrides.getD i (0, 0)) k
      (hne _ (List.getElem_mem hi)) hk
    refine ⟨p, ?_, h4, h5, h6, h7⟩
    rw [hidx]
    simpa using hp

/-- Claim C2, counterexample to the claim as stated: with the animation
configuration on two frames where the second frame is empty, the second
frame's override `(0x34, 0x48)` is written onto the *first* frame's last
packet (bytes 6–7 below are `0x34, 0x48`, not frame 0's own override
`(0x34, 0x49)`), so the override does change another frame's packet. -/
theorem C2_counterexample :
    chunk_animation_data [[1], []] =
      some [[0x29, 0, 2, 0x32, 0, 0, 0x34, 0x48, 1] ++ List.replicate 55 0] := by
  decide

/-- Claim C2 witness: the amended theorem applied to a concrete two-frame
animation input. -/
theorem C2_header_fields_witness :
    ∃ ps, chunk_data (.multi [[1], [2]]) 0x3861
        [((0x34 : Int), (0x49 : Int)), ((0x34 : Int), (0x48 : Int))] true true
        = some ps ∧
      ∀ i, (hi : i < ([[1], [2]] : List (List Nat)).length) → ∀ k,
        k < numChunks (([[1], [2]] : List (List Nat))[i].length) →
        ∃ p, ps[frameStart [[1], [2]] i + k]? = some p ∧
          p[4]? = some (k % 256) ∧ p[5]? = some (k / 256) ∧
          (k + 1 = numChunks (([[1], [2]] : List (List Nat))[i].length) →
            p[6]? = some (([((0x34 : Int), (0x49 : Int)),
              ((0x34 : Int), (0x48 : Int))].getD i (0, 0)).1.toNat) ∧
            p[7]? = some (([((0x34 : Int), (0x49 : Int)),
              ((0x34 : Int), (0x48 : Int))].getD i (0, 0)).2.toNat)) ∧
          (k + 1 ≠ numChunks (([[1], [2]] : List (List Nat))[i].length) →
            p[6]? = some (((0x3861 : Int) - k).toNat / 256) ∧
            p[7]? = some (((0x3861 : Int) - k).toNat % 256)) :=
  C2_header_fields [[1], [2]] 0x3861
    [((0x34 : Int), (0x49 : Int)), ((0x34 : Int), (0x48 : Int))]
    (by decide) (by decide) (by decide) (by decide) (by decide) (by decide)

theorem mkPacketVal_drop8 (fi h2 h3 inc : Nat) (dec : Int) (chunk : List Nat) :
    (mkPacketVal fi h2 h3 inc dec chunk).drop 8
      = chunk ++ List.replicate (PAYLOAD_SIZE - chunk.length) 0 := by
  simp [mkPacketVal]

theorem setSlice67_length (p : Packet) (v1 v2 : Nat)
    (hp : p.length = MAX_PACKET_SIZE) :
    (setSlice67 p [v1, v2]).length = MAX_PACKET_SIZE := by
  simp [setSlice67, MAX_PACKET_SIZE] at hp ⊢
  omega

theorem setSlice67_drop8 (p : Packet) (v1 v2 : Nat) (hp : 6 ≤ p.length) :
    (setSlice67 p [v1, v2]).drop 8 = p.drop 8 := by
  rw [setSlice67]
  have hl : (p.take 6 ++ [v1, v2]).length = 8 := by
    simp [List.length_take]
    omega
  rw [← hl, List.drop_left]

theorem overriddenFramePackets_map_drop8 (fi h2 h3 : Nat) (base : Int)
    (frame : List Nat) (ov : Int × Int) (hne : frame ≠ []) :
    (overriddenFramePackets fi h2 h3 base frame ov).map (fun p => p.drop 8)
      = (framePackets fi h2 h3 base frame).map (fun p => p.drop 8) := by
  have hfp := framePackets_ne_nil fi h2 h3 base frame hne
  have hlen : ((framePackets fi h2 h3 base frame).getLast?.getD []).length
      = MAX_PACKET_SIZE := by
    rw [framePackets_getLast fi h2 h3 base frame hne]
    exact mkPacketVal_length _ _ _ _ _ _ (by simp [List.length_take])
  have ha : (framePackets fi h2 h3 base frame).getLast?
      = some ((framePackets fi h2 h3 base frame).getLast?.getD []) := by
    cases h : (framePackets fi h2 h3 base frame).getLast? with
    | none => exact absurd (List.getLast?_eq_none_iff.mp h) hfp
    | some a => rfl
  rw [overriddenFramePackets]
  rw [List.map_append, List.map_dropLast]
  simp only [List.map_cons, List.map_nil]
  rw [setSlice67_drop8 _ _ _ (by rw [hlen]; decide)]
  apply List.dropLast_append_getLast?
  rw [List.getLast?_map, ha]
  simp

theorem chunks_flatten : ∀ (m : Nat) (g : List Nat),
    g.length ≤ PAYLOAD_SIZE * m →
    ((List.range m).map (fun j =>
        ((g.drop (PAYLOAD_SIZE * j)).take PAYLOAD_SIZE) ++
          List.replicate
            (PAYLOAD_SIZE - ((g.drop (PAYLOAD_SIZE * j)).take PAYLOAD_SIZE).length)
            0)).flatten
      = g ++ List.replicate (PAYLOAD_SIZE * m - g.length) 0 := by
  intro m
  induction m with
  | zero =>
    intro g hg
    simp only [PAYLOAD_SIZE] at hg ⊢
    have : g = [] := by
      cases g with
      | nil => rfl
      | cons a l => simp at hg
    simp [this]
  | succ m ih =>
    intro g hg
    rw [List.range_succ_eq_map]
    simp only [List.map_cons, List.map_map, List.flatten_cons, Nat.mul_zero,
      List.drop_zero]
    have hmap : (List.range m).map ((fun j =>
        ((g.drop (PAYLOAD_SIZE * j)).take PAYLOAD_SIZE) ++
          List.replicate
            (PAYLOAD_SIZE -
              ((g.drop (PAYLOAD_SIZE * j)).take PAYLOAD_SIZE).length) 0)
          ∘ Nat.succ)
        = (List.range m).map (fun j =>
          (((g.drop PAYLOAD_SIZE).drop (PAYLOAD_SIZE * j)).take PAYLOAD_SIZE) ++
            List.replicate
              (PAYLOAD_SIZE -
                (((g.drop PAYLOAD_SIZE).drop (PAYLOAD_SIZE * j)).take
                  PAYLOAD_SIZE).length) 0) := by
      apply List.map_congr_left
      intro a _
      simp only [Function.comp_apply, Nat.succ_eq_add_one]
      rw [List.drop_drop, Nat.mul_add, Nat.mul_one, Nat.add_comm]
    rw [hmap, ih (g.drop PAYLOAD_SIZE)
      (by simp only [List.length_drop, PAYLOAD_SIZE] at hg ⊢; omega)]
    by_cases hc : PAYLOAD_SIZE ≤ g.length
    · have ht : (g.take PAYLOAD_SIZE).length = PAYLOAD_SIZE := by
        simp [List.length_take]; omega
      rw [ht]
      simp only [Nat.sub_self, List.replicate_zero, List.append_nil]
      rw [← List.append_assoc, List.take_append_drop]
      have harith : PAYLOAD_SIZE * m - (g.drop PAYLOAD_SIZE).length
          = PAYLOAD_SIZE * (m + 1) - g.length := by
        simp only [List.length_drop, PAYLOAD_SIZE] at hc ⊢
        omega
      rw [harith]
    · push_neg at hc
      have ht : g.take PAYLOAD_SIZE = g := List.take_of_length_le (by omega)
      have hd : g.drop PAYLOAD_SIZE = [] := List.drop_eq_nil_of_le (by omega)
      rw [ht, hd]
      simp only [List.length_nil, Nat.sub_zero, List.nil_append]
      rw [List.append_assoc, ← List.replicate_add]
      congr 2
      simp only [PAYLOAD_SIZE] at hc ⊢
      omega

/-- Claim C1 (as amended): for any single frame of `L` bytes with
`0 < L ≤ 56 * 14494`, framing it with the still-image configuration
produces exactly `⌈L / 56⌉` packets, each exactly 64 bytes; concatenating
the payload bytes (bytes 8 onward — every non-final packet carries a full
56-byte chunk, so this concatenates bytes `8..8+chunkLen` of every packet
in order) reconstructs the original `L` bytes; and in the final packet
every byte after the last payload byte is zero.  The upper bound is forced
by the code: on a frame needing more than `0x389D + 1 = 14494` packets the
decrementing nibble goes negative and `int.to_bytes(2, "big")` raises
`OverflowError` (see the counterexample theorem). -/
theorem C1_still_framing (frame : List Nat) (hpos : 0 < frame.length)
    (hbound : frame.length ≤ PAYLOAD_SIZE * 14494) :
    ∃ ps, chunk_image_data frame = some ps ∧
      ps.length = numChunks frame.length ∧
      (∀ p ∈ ps, p.length = MAX_PACKET_SIZE) ∧
      ((ps.map (fun p => p.drop 8)).flatten).take frame.length = frame ∧
      ∃ last, ps.getLast? = some last ∧
        ∀ j, 8 + (frame.length - PAYLOAD_SIZE * (numChunks frame.length - 1))
            ≤ j → j < MAX_PACKET_SIZE → last[j]? = some 0 := by
  have hne : frame ≠ [] := by
    intro h
    rw [h] at hpos
    simp at hpos
  have hnum : numChunks frame.length = (frame.length + 56 - 1) / 56 := by
    simp [numChunks, PAYLOAD_SIZE]
  have hP : PAYLOAD_SIZE = 56 := rfl
  have hn1 : 1 ≤ numChunks frame.length := by omega
  have hn2 : numChunks frame.length ≤ 14494 := by
    rw [hP] at hbound; omega
  have hub2 : frame.length ≤ PAYLOAD_SIZE * numChunks frame.length := by
    rw [hP]; omega
  have hub1 : PAYLOAD_SIZE * (numChunks frame.length - 1) < frame.length := by
    rw [hP]; omega
  have hspec := chunkFrames_spec ((BASE_ADDRESS : Nat) : Int)
    [((0x34 : Int), (0x85 : Int))] false 1 (by simp) (by decide) [frame] 0 []
    (by simpa using hne)
    (by
      intro f hf
      simp at hf
      subst hf
      constructor
      · omega
      · simp only [BASE_ADDRESS]
        push_cast
        omega)
    (by simp) (by simp) (by decide)
  simp only [Bool.false_eq_true, if_false, List.nil_append] at hspec
  rw [expectedPackets, expectedPackets] at hspec
  simp only [List.append_nil, List.getD] at hspec
  refine ⟨overriddenFramePackets 0 1 0 ((BASE_ADDRESS : Nat) : Int) frame
    (((0x34 : Int), (0x85 : Int))), ?_, ?_, ?_, ?_, ?_⟩
  · rw [chunk_image_data, chunk_data]
    simpa using hspec
  · exact length_overriddenFramePackets _ _ _ _ _ _ hne
  · intro p hp
    rw [overriddenFramePackets] at hp
    rcases List.mem_append.mp hp with h | h
    · rw [List.dropLast_eq_take] at h
      exact length_mem_framePackets _ _ _ _ _ _ (List.take_subset _ _ h)
    · simp at h
      subst h
      apply setSlice67_length
      rw [framePackets_getLast _ _ _ _ _ hne]
      exact mkPacketVal_length _ _ _ _ _ _ (by simp [List.length_take])
  · rw [overriddenFramePackets_map_drop8 _ _ _ _ _ _ hne]
    rw [framePackets, List.map_map]
    have hcomp : ((fun p => List.drop 8 p) ∘ fun j =>
        mkPacketVal 0 1 0 j (((BASE_ADDRESS : Nat) : Int) - j)
          ((frame.drop (PAYLOAD_SIZE * j)).take PAYLOAD_SIZE))
        = fun j => ((frame.drop (PAYLOAD_SIZE * j)).take PAYLOAD_SIZE) ++
            List.replicate
              (PAYLOAD_SIZE -
                ((frame.drop (PAYLOAD_SIZE * j)).take PAYLOAD_SIZE).length) 0 := by
      funext j
      simp only [Function.comp_apply]
      exact mkPacketVal_drop8 _ _ _ _ _ _
    rw [hcomp, chunks_flatten (numChunks frame.length) frame hub2]
    exact List.take_left frame _
  · refine ⟨setSlice67
      ((framePackets 0 1 0 ((BASE_ADDRESS : Nat) : Int) frame).getLast?.getD [])
      [(0x34 : Int).toNat, (0x85 : Int).toNat], ?_, ?_⟩
    · rw [overriddenFramePackets]
      exact List.getLast?_concat _
    · intro j hj1 hj2
      have hlastp := framePackets_getLast 0 1 0 ((BASE_ADDRESS : Nat) : Int)
        frame hne
      rw [hlastp]
      have hchunklen : ((frame.drop
          (PAYLOAD_SIZE * (numChunks frame.length - 1))).take
            PAYLOAD_SIZE).length
          = frame.length - PAYLOAD_SIZE * (numChunks frame.length - 1) := by
        simp [List.length_take, List.length_drop, hP, hnum]
        omega
      rw [setSlice67]
      have hl8 : ((mkPacketVal 0 1 0 (numChunks frame.length - 1)
          (((BASE_ADDRESS : Nat) : Int) - (numChunks frame.length - 1 : Nat))
          ((frame.drop (PAYLOAD_SIZE * (numChunks frame.length - 1))).take
            PAYLOAD_SIZE)).take 6 ++ [(0x34 : Int).toNat,
              (0x85 : Int).toNat]).length = 8 := by
        simp [List.length_take]
        have := mkPacketVal_length 0 1 0 (numChunks frame.length - 1)
          (((BASE_ADDRESS : Nat) : Int) - (numChunks frame.length - 1 : Nat))
          ((frame.drop (PAYLOAD_SIZE * (numChunks frame.length - 1))).take
            PAYLOAD_SIZE) (by simp [List.length_take])
        simp [MAX_PACKET_SIZE] at this
        omega
      rw [List.getElem?_append_right (by rw [hl8]; omega)]
      rw [hl8, mkPacketVal_drop8]
      rw [List.getElem?_append_right (by rw [hchunklen]; omega)]
      rw [hchunklen, List.getElem?_replicate, if_pos (by
        simp only [hP, hnum] at hj1 ⊢
        simp [MAX_PACKET_SIZE] at hj2
        omega)]

theorem mkPacket_none_of_neg (fi h2 h3 inc : Nat) (dec : Int)
    (chunk : List Nat) (hd : dec < 0) :
    mkPacket fi h2 h3 inc dec chunk = none := by
  have hbe : toBytesBE2 dec = none := by
    unfold toBytesBE2
    rw [if_neg (by omega)]
  unfold mkPacket
  rw [hbe]
  cases setByte fi <;> cases setByte h2 <;> cases toBytesLE2 inc <;> simp

theorem chunkFrameLoop_none (fi h2 h3 : Nat) (frame : List Nat) :
    ∀ (offs : List Nat) (inc : Nat) (dec : Int),
      0 < offs.length → dec + 1 < (offs.length : Int) →
      chunkFrameLoop fi h2 h3 frame offs inc dec = none := by
  intro offs
  induction offs with
  | nil =>
    intro inc dec h _
    simp at h
  | cons o rest ih =>
    intro inc dec _ hlt
    rw [chunkFrameLoop]
    by_cases hd : dec < 0
    · rw [mkPacket_none_of_neg fi h2 h3 inc dec _ hd]
      simp
    · push_neg at hd
      have hrest : chunkFrameLoop fi h2 h3 frame rest (inc + 1) (dec - 1)
          = none := by
        apply ih
        · simp at hlt
          omega
        · simp at hlt
          omega
      rw [hrest]
      cases mkPacket fi h2 h3 inc dec ((frame.drop o).take PAYLOAD_SIZE) <;>
        simp

/-- Claim C1, counterexample to the claim as stated ("for any L > 0"): a
frame of `L = 56 * 14494 + 1 = 811665` bytes needs 14495 packets, so the
decrementing nibble `0x389D - k` goes negative at packet index 14494 and
`int.to_bytes(2, byteorder="big")` raises `OverflowError`; `_chunk_data`
raises instead of producing `⌈L / 56⌉` packets. -/
theorem C1_counterexample :
    chunk_image_data (List.replicate 811665 0) = none := by
  have hlen : (List.replicate 811665 (0 : Nat)).length = 811665 :=
    List.length_replicate _ _
  have hloop : chunkFrameLoop 0 1 0 (List.replicate 811665 0)
      (pyRange 811665 PAYLOAD_SIZE) 0 ((BASE_ADDRESS : Nat) : Int) = none := by
    have hl : (pyRange 811665 PAYLOAD_SIZE).length = 14495 := by
      simp [pyRange, PAYLOAD_SIZE]
    apply chunkFrameLoop_none
    · rw [hl]
      norm_num
    · rw [hl]
      simp [BASE_ADDRESS]
  rw [chunk_image_data, chunk_data]
  simp only [List.length_cons, List.length_nil]
  rw [chunkFrames]
  simp only [Bool.false_eq_true, if_false, hlen]
  rw [hloop]
  simp

/-- Claim C1 witness: the amended theorem applied to a concrete one-byte
frame. -/
theorem C1_still_framing_witness :
    0 < ([7] : List Nat).length ∧
    ([7] : List Nat).length ≤ PAYLOAD_SIZE * 14494 ∧
    (∃ ps, chunk_image_data [7] = some ps ∧
      ps.length = numChunks ([7] : List Nat).length ∧
      (∀ p ∈ ps, p.length = MAX_PACKET_SIZE) ∧
      ((ps.map (fun p => p.drop 8)).flatten).take ([7] : List Nat).length
        = [7] ∧
      ∃ last, ps.getLast? = some last ∧
        ∀ j, 8 + (([7] : List Nat).length -
            PAYLOAD_SIZE * (numChunks ([7] : List Nat).length - 1)) ≤ j →
          j < MAX_PACKET_SIZE → last[j]? = some 0) :=
  ⟨by decide, by decide, C1_still_framing [7] (by decide) (by decide)⟩

/-- Claim C6 (as amended): the packet framer returns normally on every
input whose frames are all non-empty and within protocol bounds; and with
the per-frame override disabled, an empty frame contributes an empty packet
sequence — processing simply continues with the accumulated packets
unchanged, so no other frame's packets are modified.  The restriction is
forced by the code: with overrides enabled (both canonical configurations)
`packets[-1]` raises `IndexError` when no packet has been produced yet
(see the counterexample), and an empty later frame writes its override
into the previous frame's last packet. -/
theorem C6_empty_frame (frames : List (List Nat)) (base : Int)
    (overrides : List (Int × Int)) (anim : Bool)
    (hne : ∀ f ∈ frames, f ≠ [])
    (hcnt : ∀ f ∈ frames, numChunks f.length ≤ 65536 ∧
      (numChunks f.length : Int) ≤ base + 1)
    (hbase : base < 65536)
    (hflen : frames.length < 256)
    (hovlen : frames.length ≤ overrides.length)
    (hovb : ∀ ov ∈ overrides, 0 ≤ ov.1 ∧ ov.1 < 256 ∧ 0 ≤ ov.2 ∧ ov.2 < 256) :
    (chunk_data (.multi frames) base overrides true anim).isSome ∧
    (∀ (numFrames fi : Nat) (rest : List (List Nat)) (acc : List Packet),
      chunkFrames numFrames base overrides false anim fi ([] :: rest) acc
        = chunkFrames numFrames base overrides false anim (fi + 1) rest acc) := by
  constructor
  · have hh2 : (if anim then frames.length else 1) < 256 := by
      cases anim
      · simp
      · simp
        omega
    have hspec := chunkFrames_spec base overrides anim frames.length hh2
      hbase frames 0 [] hne hcnt (by omega) (by omega) hovb
    simp [chunk_data, hspec]
  · intro numFrames fi rest acc
    rw [chunkFrames]
    have hloop : chunkFrameLoop fi (if anim then numFrames else 1)
        (if anim then 0x32 else 0x00) ([] : List Nat)
        (pyRange (List.length ([] : List Nat)) PAYLOAD_SIZE) 0 base
        = some [] := by
      have : pyRange (List.length ([] : List Nat)) PAYLOAD_SIZE = [] := by
        simp [pyRange, PAYLOAD_SIZE]
      rw [this, chunkFrameLoop]
    rw [hloop]
    simp

/-- Claim C6, counterexample to the claim as stated: framing a single empty
frame with the still-image configuration does not return normally with an
empty packet sequence — `packets[-1][6:8] = bytearray(override_value)`
raises `IndexError` on the empty accumulator. -/
theorem C6_counterexample : chunk_image_data [] = none := by
  decide

/-- Claim C6 witness: the amended theorem applied to a concrete input. -/
theorem C6_empty_frame_witness :
    (chunk_data (.multi [[5]]) ((0x389D : Nat) : Int)
        [((0x34 : Int), (0x85 : Int))] true false).isSome ∧
    (∀ (numFrames fi : Nat) (rest : List (List Nat)) (acc : List Packet),
      chunkFrames numFrames ((0x389D : Nat) : Int)
          [((0x34 : Int), (0x85 : Int))] false false fi ([] :: rest) acc
        = chunkFrames numFrames ((0x389D : Nat) : Int)
            [((0x34 : Int), (0x85 : Int))] false false (fi + 1) rest acc) :=
  C6_empty_frame [[5]] ((0x389D : Nat) : Int)
    [((0x34 : Int), (0x85 : Int))] false
    (by decide) (by decide) (by decide) (by decide) (by decide) (by decide)

/-- Claim C10: passing a single bare byte sequence to `_chunk_data` is
equivalent to passing the one-element list containing it: the function
normalizes `bytearray` input to a one-element list before chunking, so with
all other arguments equal both calls produce identical packet sequences. -/
theorem C10_single_eq_multi (f : List Nat) (base : Int)
    (overrides : List (Int × Int)) (pfo anim : Bool) :
    chunk_data (.single f) base overrides pfo anim
      = chunk_data (.multi [f]) base overrides pfo anim := rfl

theorem decode_triples_flatMap :
    ∀ ts : List (Nat × Nat × Nat),
      decode_triples (ts.flatMap (fun t => [t.1, t.2.1, t.2.2])) = ts := by
  intro ts
  induction ts with
  | nil => rfl
  | cons t rest ih =>
    simp only [List.flatMap_cons, List.cons_append, List.nil_append]
    rw [decode_triples, ih]

theorem flatMap_triples_length (ts : List (Nat × Nat × Nat)) :
    (ts.flatMap (fun t => [t.1, t.2.1, t.2.2])).length = 3 * ts.length := by
  induction ts with
  | nil => rfl
  | cons t rest ih =>
    simp only [List.flatMap_cons, List.length_append, List.length_cons,
      List.length_nil, ih]
    omega

theorem encode_image_eq_flatMap (getpixel : Nat → Nat → Pixel) :
    encode_image getpixel
      = ((List.range 60).flatMap (fun col => (List.range 9).map (fun row =>
          ((getpixel col row).1.val, (getpixel col row).2.1.val,
            (getpixel col row).2.2.val)))).flatMap
          (fun t => [t.1, t.2.1, t.2.2]) := by
  rw [encode_image, List.flatMap_assoc]
  simp only [IMAGE_DIMENSIONS]
  have hcol : ∀ col, ((List.range 9).map (fun row =>
      (((getpixel col row).1.val, (getpixel col row).2.1.val,
        (getpixel col row).2.2.val) : Nat × Nat × Nat))).flatMap
        (fun t => [t.1, t.2.1, t.2.2])
      = (List.range 9).flatMap (fun row => rgb_to_hex (getpixel col row)) := by
    intro col
    rw [List.flatMap_map]
    simp [rgb_to_hex]
  simp only [List.flatMap_def]
  congr 1

/-- Claim C3: for every RGB canvas already of the fixed 60×9 dimension,
encoding produces exactly 1620 bytes, emitted column-major (outer loop over
the 60 columns, inner loop over the 9 rows) with 3 bytes R,G,B per pixel;
decoding those bytes back into (R,G,B) triples in the same column-major
order reconstructs the original per-pixel colors exactly. -/
theorem C3_encode_roundtrip (getpixel : Nat → Nat → Pixel) :
    (encode_image getpixel).length = 1620 ∧
    decode_triples (encode_image getpixel)
      = (List.range 60).flatMap (fun col => (List.range 9).map (fun row =>
          ((getpixel col row).1.val, (getpixel col row).2.1.val,
            (getpixel col row).2.2.val))) := by
  have he := encode_image_eq_flatMap getpixel
  have hplen : ((List.range 60).flatMap (fun col =>
      (List.range 9).map (fun row =>
        ((getpixel col row).1.val, (getpixel col row).2.1.val,
          (getpixel col row).2.2.val)))).length = 540 := by
    simp [List.length_flatMap, Function.comp_def, List.map_const']
  constructor
  · rw [he, flatMap_triples_length, hplen]
  · rw [he, decode_triples_flatMap]

/-- Claim C9: `_find_product_id` iterates the fixed ordered product-id list
`[0x4010, 0x4015]` under vendor id `0x3151` and returns the first product
id whose enumeration yields at least one interface, or `none` ("not found")
if none does; in particular, over an enumeration containing only `0x4015`
it returns `0x4015`, and over an enumeration that is empty for both ids it
returns `none`. -/
theorem C9_find_product_id :
    PRODUCT_IDS_WIRED = [0x4010, 0x4015] ∧ VENDOR_ID = 0x3151 ∧
    (∀ enum : Nat → Nat → List Unit,
      find_product_id enum
        = PRODUCT_IDS_WIRED.find? (fun pid => !(enum VENDOR_ID pid).isEmpty)) ∧
    find_product_id (fun vid pid =>
      if vid = 0x3151 ∧ pid = 0x4015 then [()] else []) = some 0x4015 ∧
    find_product_id (fun _ _ => []) = none := by
  refine ⟨rfl, rfl, ?_, by decide, by decide⟩
  intro enum
  rw [find_product_id, PRODUCT_IDS_WIRED]
  cases h1 : (enum VENDOR_ID 0x4010).isEmpty <;>
    cases h2 : (enum VENDOR_ID 0x4015).isEmpty <;>
    simp [find_product_id_loop, List.find?, h1, h2]

/-- Claim C7: if the liveness probe (querying the device's product string)
fails immediately after opening, `send_image` and `send_animation` raise
the communication error (`IOError("Could not communicate with device")`)
and no packet — neither preamble nor frame data — is sent to the device. -/
theorem C7_probe_failure (imageData : List Nat) (frames : List (List Nat)) :
    send_image_model true false imageData = ([], some .commFailure) ∧
    send_animation_model true false frames = ([], some .commFailure) :=
  ⟨rfl, rfl⟩

/-- Claim C8: when the OS-level device open fails, `_open_device` raises
(the caught `IOError` is reported and the trailing assertion on the cleared
handle fails) and the session retains no open handle — `self.device` is
`None`, i.e. the session remains closed. -/
theorem C8_open_failure :
    open_device_model false = (none, some PyErr.openFailed) := rfl

/-- Claim C4 (code bug evaluation): for a 2-frame animation with an open,
live device, `send_animation` never sends the preamble packet at all:
`FIRST_PACKET` is an immutable `bytes` constant, so
`first_packet[2] = len(frames)` raises `TypeError` (the source's own TODO
records exactly this), and the call aborts with nothing sent instead of
sending a preamble with byte 2 = N and byte 7 = 0xC8 - (N - 2). -/
theorem C4_preamble_typeerror :
    send_animation_model true true [[1], [2]] = ([], some .preambleImmutable) := by
  decide

/-- Claim C5 (code bug evaluation): `send_animation` has no minimum-frame
guard (the source's own TODO: "check that gif has at least two frames").
A 1-frame animation is not rejected with any InsufficientFrames-style
error: it passes the input checks, is chunked, and only fails with the
unrelated preamble `TypeError`; a 0-frame animation raises
`ValueError("No frames extracted from animation")` instead. -/
theorem C5_no_min_frames_guard :
    send_animation_model true true [[1]] = ([], some .preambleImmutable) ∧
    send_animation_model true true ([] : List (List Nat))
      = ([], some .noFrames) := by
  exact ⟨by decide, by decide⟩
